import Mathlib

/-!
Shallow embedding of the covered-call stop-loss calculator (src/app.py)
and a verification of its calculation engine: the 14-period average true
range (ATR), the dynamic stop-loss policy, the weekly buy/hold/sell
simulation, the option-premium estimator and the aggregation of the
return figures.  Prices and returns are modelled as rationals; the two
annualized figures that raise a capital factor to the power 1/years are
modelled over the reals on top of the rational core.
-/

set_option maxRecDepth 4000

/-- One daily OHLC price bar.  The date is a day index with day 0 a
Monday, so that the calendar week of a bar is date / 7 (mirroring the
weekly periods the script assigns with to_period). -/
structure Bar where
  date : ℕ
  open_ : ℚ
  high : ℚ
  low : ℚ
  close : ℚ
deriving DecidableEq, Inhabited

/-- The four slider-validated configuration inputs of the script. -/
structure Params where
  max_loss_pct : ℚ
  atr_multiplier : ℚ
  strike_pct : ℚ
  weeks_of_history : ℕ
deriving DecidableEq, Inhabited

/-- Stop-loss policy (src/app.py lines 83-85 and 156-158): the maximum
of the ATR floor and the hard percentage floor below the reference
price. -/
def stop_loss_price (reference atrv atr_multiplier max_loss_pct : ℚ) : ℚ :=
  max (reference - atr_multiplier * atrv) (reference * (1 - max_loss_pct))

/-- True range of a bar given the previous close (src/app.py lines
73-78): max of high-low, |high-prevClose| and |low-prevClose|. -/
def true_range (prev cur : Bar) : ℚ :=
  max (cur.high - cur.low) (max |cur.high - prev.close| |cur.low - prev.close|)

/-- True ranges of a run of bars, each taken against its predecessor. -/
def trAux (prev : Bar) : List Bar → List ℚ
  | [] => []
  | cur :: rest => true_range prev cur :: trAux cur rest

/-- The true-range series the script builds.  For the first bar the two
prev-close differences are NaN and the row-wise max skips them, so the
first entry is simply high - low. -/
def trList : List Bar → List ℚ
  | [] => []
  | b :: bs => (b.high - b.low) :: trAux b bs

/-- The last n entries of a list of rationals. -/
def lastN (n : ℕ) (l : List ℚ) : List ℚ := l.drop (l.length - n)

/-- ATR of the script (src/app.py line 80): the trailing mean of the
last 14 entries of the true-range series, evaluated once at the end. -/
def atr (hist : List Bar) : ℚ := (lastN 14 (trList hist)).sum / 14

/-- Modelled from the spec wording of the ATR Estimator: the first bar
has no true range and is excluded, and ATR is the simple moving average
over the most recent true-range values (at most 14 of them). -/
def trListSpec : List Bar → List ℚ
  | [] => []
  | b :: bs => trAux b bs

/-- Modelled from the spec wording of the ATR Estimator: the mean of
the most recent 14 true-range values of the first-bar-excluded
series. -/
def atrSpec (hist : List Bar) : ℚ :=
  ((lastN 14 (trListSpec hist)).sum) / ((lastN 14 (trListSpec hist)).length : ℚ)

lemma trAux_length : ∀ (l : List Bar) (prev : Bar), (trAux prev l).length = l.length := by
  intro l
  induction l with
  | nil => intro prev; rfl
  | cons cur rest ih => intro prev; simp [trAux, ih]

lemma lastN_cons_of_le (n : ℕ) (x : ℚ) (l : List ℚ) (h : n ≤ l.length) :
    lastN n (x :: l) = lastN n l := by
  unfold lastN
  have hx : (x :: l).length - n = (l.length - n) + 1 := by
    simp only [List.length_cons]; omega
  rw [hx, List.drop_succ_cons]

lemma lastN_length_of_le (n : ℕ) (l : List ℚ) (h : n ≤ l.length) :
    (lastN n l).length = n := by
  unfold lastN
  rw [List.length_drop]
  omega

/-- A uniform tail of 13 bars, each with true range 13 against its
predecessor, used in concrete ATR computations. -/
def c3tail : List Bar :=
  [⟨1, 100, 113, 100, 100⟩, ⟨2, 100, 113, 100, 100⟩, ⟨3, 100, 113, 100, 100⟩,
   ⟨4, 100, 113, 100, 100⟩, ⟨5, 100, 113, 100, 100⟩, ⟨6, 100, 113, 100, 100⟩,
   ⟨7, 100, 113, 100, 100⟩, ⟨8, 100, 113, 100, 100⟩, ⟨9, 100, 113, 100, 100⟩,
   ⟨10, 100, 113, 100, 100⟩, ⟨11, 100, 113, 100, 100⟩, ⟨12, 100, 113, 100, 100⟩,
   ⟨13, 100, 113, 100, 100⟩]

/-- A 14-bar history whose first bar has a wide high-low range. -/
def c3bars : List Bar := ⟨0, 100, 130, 100, 100⟩ :: c3tail

/-- The same 14-bar history except for the high of the first bar. -/
def c3bars' : List Bar := ⟨0, 100, 131, 100, 100⟩ :: c3tail

/-- A 15-bar history for the witness of the amended C3. -/
def c3bars15 : List Bar := ⟨0, 100, 113, 100, 100⟩ :: c3bars

/-- C3 counterexample: on a series of exactly 14 bars the script does
not exclude the first bar.  Its high-low range enters the 14-entry
rolling window (the prev-close terms are skipped as missing), so the
computed ATR differs from the spec-worded ATR, and two series that
agree everywhere except the high of the first bar produce different
ATRs. -/
theorem c3_atr_first_bar_counterexample :
    c3bars.length = 14 ∧ c3bars'.length = 14 ∧
    atr c3bars ≠ atrSpec c3bars ∧
    c3bars.headI.close = c3bars'.headI.close ∧ c3bars.tail = c3bars'.tail ∧
    atr c3bars ≠ atr c3bars' := by
  refine ⟨by simp [c3bars, c3tail], by simp [c3bars', c3tail], ?_, rfl, rfl, ?_⟩
  · norm_num [atr, atrSpec, c3bars, c3tail, trList, trListSpec, trAux, true_range,
      lastN, max_def, abs]
  · norm_num [atr, c3bars, c3bars', c3tail, trList, trAux, true_range,
      lastN, max_def, abs]

/-- C3 (amended): for every bar series of length at least 15 the ATR of
the script equals the spec description — the first bar is excluded (it
falls outside the trailing 14-entry window) and ATR is the simple
moving average of the most recent 14 true-range values, each of the
form max(high-low, |high-prevClose|, |low-prevClose|). -/
theorem c3_atr_matches_spec_from_15 (hist : List Bar) (h : 15 ≤ hist.length) :
    atr hist = atrSpec hist := by
  cases hist with
  | nil => simp at h
  | cons b bs =>
    have hlen : 14 ≤ bs.length := by
      simp only [List.length_cons] at h; omega
    have hlen2 : 14 ≤ (trAux b bs).length := by rw [trAux_length]; exact hlen
    unfold atr atrSpec
    have htr : trList (b :: bs) = (b.high - b.low) :: trAux b bs := rfl
    have hspec : trListSpec (b :: bs) = trAux b bs := rfl
    rw [htr, hspec, lastN_cons_of_le 14 _ _ hlen2, lastN_length_of_le 14 _ hlen2]
    norm_num

/-- Witness for C3 (amended) at a concrete 15-bar series. -/
theorem c3_atr_matches_spec_from_15_witness :
    15 ≤ c3bars15.length ∧ atr c3bars15 = atrSpec c3bars15 :=
  ⟨by simp [c3bars15, c3bars, c3tail],
   c3_atr_matches_spec_from_15 c3bars15 (by simp [c3bars15, c3bars, c3tail])⟩

/-- C9: for a fixed positive reference price and fixed positive ATR the
stop-loss level is monotonically non-increasing in the ATR multiplier
and in the maximum-loss fraction: raising either parameter never raises
the stop. -/
theorem c9_stop_loss_monotone (reference atrv m m' f f' : ℚ)
    (href : 0 < reference) (hatr : 0 < atrv) (hm : m ≤ m') (hf : f ≤ f') :
    stop_loss_price reference atrv m' f ≤ stop_loss_price reference atrv m f ∧
    stop_loss_price reference atrv m f' ≤ stop_loss_price reference atrv m f := by
  constructor
  · apply max_le_max _ le_rfl
    have hmm : m * atrv ≤ m' * atrv := mul_le_mul_of_nonneg_right hm hatr.le
    linarith
  · apply max_le_max le_rfl
    have hff : reference * (1 - f') ≤ reference * (1 - f) :=
      mul_le_mul_of_nonneg_left (by linarith) href.le
    exact hff

/-- Witness for C9 at concrete slider values. -/
theorem c9_stop_loss_monotone_witness :
    (0 : ℚ) < 100 ∧ (0 : ℚ) < 2 ∧ (1 : ℚ) ≤ 2 ∧ (1/10 : ℚ) ≤ 1/5 ∧
    (stop_loss_price 100 2 2 (1/10) ≤ stop_loss_price 100 2 1 (1/10) ∧
     stop_loss_price 100 2 1 (1/5) ≤ stop_loss_price 100 2 1 (1/10)) :=
  ⟨by norm_num, by norm_num, by norm_num, by norm_num,
   c9_stop_loss_monotone 100 2 1 2 (1/10) (1/5) (by norm_num) (by norm_num)
     (by norm_num) (by norm_num)⟩

/-- Why the simulator exited a week: a stop-loss hit on a given date,
or held to Friday / capped at the strike. -/
inductive ExitReason where
  | stopLossHit (date : ℕ)
  | heldToFridayOrCapped
deriving DecidableEq, Inhabited

/-- One row of the weekly trade log (src/app.py lines 175-184). -/
structure Outcome where
  week : ℕ
  monday_price : ℚ
  friday_price : ℚ
  sell_price : ℚ
  weekly_return_pct : ℚ
  weekly_dollar_return : ℚ
  capital_after_week : ℚ
  exit_reason : ExitReason
deriving DecidableEq, Inhabited

/-- Sell price and exit reason of one week (src/app.py lines 153-169):
stop level and strike cap are both computed from the Monday open of
this week; the first bar whose close is at or below the stop forces an
exit at the stop level, otherwise the week exits at the Friday close
capped at the percentage strike. -/
def simWeekSellReason (p : Params) (atrv : ℚ) (g : List Bar) : ℚ × ExitReason :=
  let monday_price := g.headI.open_
  let friday_price := g.getLastI.close
  let weekly_stop_loss := stop_loss_price monday_price atrv p.atr_multiplier p.max_loss_pct
  let strike_price_week := monday_price * (1 + p.strike_pct)
  match g.find? (fun b => decide (b.close ≤ weekly_stop_loss)) with
  | some b => (weekly_stop_loss, ExitReason.stopLossHit b.date)
  | none => (min friday_price strike_price_week, ExitReason.heldToFridayOrCapped)

/-- One weekly trade-log entry (src/app.py lines 171-184). -/
def mkOutcome (p : Params) (atrv : ℚ) (wg : ℕ × List Bar) (capital : ℚ) : Outcome :=
  let monday_price := wg.2.headI.open_
  let sr := simWeekSellReason p atrv wg.2
  let weekly_return := (sr.1 - monday_price) / monday_price
  { week := wg.1
    monday_price := monday_price
    friday_price := wg.2.getLastI.close
    sell_price := sr.1
    weekly_return_pct := weekly_return * 100
    weekly_dollar_return := capital * weekly_return
    capital_after_week := capital * (1 + weekly_return)
    exit_reason := sr.2 }

/-- The weekly simulation loop (src/app.py lines 146-184): weeks with
fewer than 2 bars are skipped, capital compounds through the rest. -/
def runWeeks (p : Params) (atrv : ℚ) : List (ℕ × List Bar) → ℚ → ℚ × List Outcome
  | [], capital => (capital, [])
  | wg :: rest, capital =>
    if wg.2.length < 2 then runWeeks p atrv rest capital
    else
      let o := mkOutcome p atrv wg capital
      let next := runWeeks p atrv rest o.capital_after_week
      (next.1, o :: next.2)

/-- Calendar week of a bar: dates are day indices with day 0 a Monday,
so the Monday-to-Sunday week of a bar is date / 7. -/
def weekOf (b : Bar) : ℕ := b.date / 7

/-- Partition of a date-ordered bar list into its calendar weeks,
preserving intra-week order (src/app.py lines 95 and 149). -/
def groupByWeek (hist : List Bar) : List (ℕ × List Bar) :=
  hist.foldr
    (fun b acc =>
      match acc with
      | [] => [(weekOf b, [b])]
      | (w, g) :: rest =>
        if weekOf b = w then (w, b :: g) :: rest
        else (weekOf b, [b]) :: (w, g) :: rest)
    []

lemma simWeekSellReason_eq (p : Params) (atrv : ℚ) (g : List Bar) :
    simWeekSellReason p atrv g =
      match g.find? (fun b => decide
          (b.close ≤ stop_loss_price g.headI.open_ atrv p.atr_multiplier p.max_loss_pct)) with
      | some b =>
          (stop_loss_price g.headI.open_ atrv p.atr_multiplier p.max_loss_pct,
           ExitReason.stopLossHit b.date)
      | none =>
          (min g.getLastI.close (g.headI.open_ * (1 + p.strike_pct)),
           ExitReason.heldToFridayOrCapped) := rfl

lemma mkOutcome_monday (p : Params) (atrv : ℚ) (wg : ℕ × List Bar) (capital : ℚ) :
    (mkOutcome p atrv wg capital).monday_price = wg.2.headI.open_ := rfl

lemma mkOutcome_sell (p : Params) (atrv : ℚ) (wg : ℕ × List Bar) (capital : ℚ) :
    (mkOutcome p atrv wg capital).sell_price = (simWeekSellReason p atrv wg.2).1 := rfl

lemma mkOutcome_reason (p : Params) (atrv : ℚ) (wg : ℕ × List Bar) (capital : ℚ) :
    (mkOutcome p atrv wg capital).exit_reason = (simWeekSellReason p atrv wg.2).2 := rfl

lemma mkOutcome_pct (p : Params) (atrv : ℚ) (wg : ℕ × List Bar) (capital : ℚ) :
    (mkOutcome p atrv wg capital).weekly_return_pct
      = ((simWeekSellReason p atrv wg.2).1 - wg.2.headI.open_) / wg.2.headI.open_ * 100 := rfl

lemma mkOutcome_capital (p : Params) (atrv : ℚ) (wg : ℕ × List Bar) (capital : ℚ) :
    (mkOutcome p atrv wg capital).capital_after_week
      = capital * (1 + ((simWeekSellReason p atrv wg.2).1 - wg.2.headI.open_) / wg.2.headI.open_) :=
  rfl

lemma find?_eq_some_split {p : Bar → Bool} :
    ∀ {l : List Bar} {b : Bar}, l.find? p = some b →
      ∃ l₁ l₂, l = l₁ ++ b :: l₂ ∧ p b = true ∧ ∀ a ∈ l₁, p a = false := by
  intro l
  induction l with
  | nil => intro b h; simp [List.find?] at h
  | cons x xs ih =>
    intro b h
    cases hpx : p x with
    | true =>
      rw [List.find?_cons_of_pos _ hpx] at h
      cases h
      exact ⟨[], xs, rfl, hpx, by simp⟩
    | false =>
      rw [List.find?_cons_of_neg _ (by simp [hpx])] at h
      obtain ⟨l₁, l₂, rfl, hb, hl⟩ := ih h
      refine ⟨x :: l₁, l₂, rfl, hb, ?_⟩
      intro a ha
      rcases List.mem_cons.mp ha with rfl | ha
      · exact hpx
      · exact hl a ha

/-- C1: for a week group with at least 2 bars, the simulator scans the
bars of the week in encounter order for the first bar whose close is at
or below the weekly stop level; if one exists the sell price is exactly
the stop-loss level and the exit reason records the date of that first
bar; otherwise the sell price is min(fridayClose, mondayOpen * (1 +
strikePct)); in both cases the recorded weekly return is (sellPrice -
mondayOpen) / mondayOpen. -/
theorem c1_weekly_exit_policy (p : Params) (atrv : ℚ) (w : ℕ) (g : List Bar)
    (capital : ℚ) (h2 : 2 ≤ g.length) :
    ((∃ b ∈ g, b.close ≤ stop_loss_price g.headI.open_ atrv p.atr_multiplier p.max_loss_pct) →
      (mkOutcome p atrv (w, g) capital).sell_price
          = stop_loss_price g.headI.open_ atrv p.atr_multiplier p.max_loss_pct ∧
      ∃ l₁ b l₂, g = l₁ ++ b :: l₂ ∧
        b.close ≤ stop_loss_price g.headI.open_ atrv p.atr_multiplier p.max_loss_pct ∧
        (∀ a ∈ l₁, stop_loss_price g.headI.open_ atrv p.atr_multiplier p.max_loss_pct < a.close) ∧
        (mkOutcome p atrv (w, g) capital).exit_reason = ExitReason.stopLossHit b.date) ∧
    ((∀ b ∈ g, stop_loss_price g.headI.open_ atrv p.atr_multiplier p.max_loss_pct < b.close) →
      (mkOutcome p atrv (w, g) capital).sell_price
          = min g.getLastI.close (g.headI.open_ * (1 + p.strike_pct)) ∧
      (mkOutcome p atrv (w, g) capital).exit_reason = ExitReason.heldToFridayOrCapped) ∧
    (mkOutcome p atrv (w, g) capital).weekly_return_pct
        = ((mkOutcome p atrv (w, g) capital).sell_price - g.headI.open_) / g.headI.open_ * 100 := by
  refine ⟨?_, ?_, rfl⟩
  · rintro ⟨b0, hb0, hb0le⟩
    cases hfind : g.find? (fun b => decide
        (b.close ≤ stop_loss_price g.headI.open_ atrv p.atr_multiplier p.max_loss_pct)) with
    | none =>
      exfalso
      have hnone := List.find?_eq_none.mp hfind b0 hb0
      simp only [decide_eq_true_eq] at hnone
      exact hnone hb0le
    | some b =>
      obtain ⟨l₁, l₂, hg, hpb, hl₁⟩ := find?_eq_some_split hfind
      refine ⟨?_, l₁, b, l₂, hg, by simpa using hpb, ?_, ?_⟩
      · rw [mkOutcome_sell, simWeekSellReason_eq]
        simp only [hfind]
      · intro a ha
        have := hl₁ a ha
        simp only [decide_eq_false_iff_not, not_le] at this
        exact this
      · rw [mkOutcome_reason, simWeekSellReason_eq]
        simp only [hfind]
  · intro hall
    have hfind : g.find? (fun b => decide
        (b.close ≤ stop_loss_price g.headI.open_ atrv p.atr_multiplier p.max_loss_pct)) = none := by
      apply List.find?_eq_none.mpr
      intro x hx
      simp only [decide_eq_true_eq, not_le]
      exact hall x hx
    constructor
    · rw [mkOutcome_sell, simWeekSellReason_eq]
      simp only [hfind]
    · rw [mkOutcome_reason, simWeekSellReason_eq]
      simp only [hfind]

/-- A concrete week: Monday open 100, a mid-week close of 94 below any
stop near 95, used as the C1 witness. -/
def c1week : List Bar :=
  [⟨700, 100, 101, 99, 100⟩, ⟨701, 95, 96, 93, 94⟩, ⟨704, 97, 98, 96, 97⟩]

/-- Witness for C1 at a concrete week group. -/
theorem c1_weekly_exit_policy_witness :
    2 ≤ c1week.length ∧
    (((∃ b ∈ c1week, b.close ≤ stop_loss_price c1week.headI.open_ 1 2 (1/10)) →
      (mkOutcome ⟨1/10, 2, 1/50, 12⟩ 1 (100, c1week) 1).sell_price
          = stop_loss_price c1week.headI.open_ 1 2 (1/10) ∧
      ∃ l₁ b l₂, c1week = l₁ ++ b :: l₂ ∧
        b.close ≤ stop_loss_price c1week.headI.open_ 1 2 (1/10) ∧
        (∀ a ∈ l₁, stop_loss_price c1week.headI.open_ 1 2 (1/10) < a.close) ∧
        (mkOutcome ⟨1/10, 2, 1/50, 12⟩ 1 (100, c1week) 1).exit_reason
            = ExitReason.stopLossHit b.date) ∧
    ((∀ b ∈ c1week, stop_loss_price c1week.headI.open_ 1 2 (1/10) < b.close) →
      (mkOutcome ⟨1/10, 2, 1/50, 12⟩ 1 (100, c1week) 1).sell_price
          = min c1week.getLastI.close (c1week.headI.open_ * (1 + (1/50 : ℚ))) ∧
      (mkOutcome ⟨1/10, 2, 1/50, 12⟩ 1 (100, c1week) 1).exit_reason
          = ExitReason.heldToFridayOrCapped) ∧
    (mkOutcome ⟨1/10, 2, 1/50, 12⟩ 1 (100, c1week) 1).weekly_return_pct
        = ((mkOutcome ⟨1/10, 2, 1/50, 12⟩ 1 (100, c1week) 1).sell_price - c1week.headI.open_)
            / c1week.headI.open_ * 100) :=
  ⟨by simp [c1week],
   c1_weekly_exit_policy ⟨1/10, 2, 1/50, 12⟩ 1 100 c1week 1 (by simp [c1week])⟩

lemma getLastI_mem : ∀ (l : List Bar), l ≠ [] → l.getLastI ∈ l
  | [], h => absurd rfl h
  | [a], _ => by simp [List.getLastI]
  | [a, b], _ => by simp [List.getLastI]
  | a :: b :: c :: t, _ => by
    have ih := getLastI_mem (c :: t) (by simp)
    have h1 : (a :: b :: c :: t).getLastI = (c :: t).getLastI := by
      simp [List.getLastI]
    rw [h1]
    exact List.mem_cons_of_mem a (List.mem_cons_of_mem b ih)

lemma runWeeks_proj (p : Params) (atrv : ℚ) :
    ∀ (gs : List (ℕ × List Bar)) (c : ℚ),
      (runWeeks p atrv gs c).2.map (fun o => (o.monday_price, o.sell_price, o.exit_reason))
        = (gs.filter fun wg => 2 ≤ wg.2.length).map
            (fun wg => (wg.2.headI.open_, (simWeekSellReason p atrv wg.2).1,
                        (simWeekSellReason p atrv wg.2).2)) := by
  intro gs
  induction gs with
  | nil => intro c; rfl
  | cons wg rest ih =>
    intro c
    by_cases hlen : wg.2.length < 2
    · rw [List.filter_cons_of_neg (by simp; omega)]
      simp only [runWeeks, if_pos hlen]
      exact ih c
    · rw [List.filter_cons_of_pos (by simp; omega)]
      simp only [runWeeks, if_neg hlen, List.map_cons]
      exact congrArg₂ List.cons rfl (ih _)

/-- C2: the stop-loss level is max(reference - atrMultiplier * ATR,
reference * (1 - maxLossFraction)), and in the weekly simulation the
per-week quantities (Monday price, sell price, exit reason) of every
simulated week equal a pure per-week function of that week alone —
recomputed fresh from the Monday open of that week, never carried over
or ratcheted from a previous week or from the threaded capital. -/
theorem c2_stop_level_fresh_each_week (p : Params) (atrv reference : ℚ)
    (gs : List (ℕ × List Bar)) (c : ℚ) :
    stop_loss_price reference atrv p.atr_multiplier p.max_loss_pct
        = max (reference - p.atr_multiplier * atrv) (reference * (1 - p.max_loss_pct)) ∧
    (runWeeks p atrv gs c).2.map (fun o => (o.monday_price, o.sell_price, o.exit_reason))
        = (gs.filter fun wg => 2 ≤ wg.2.length).map
            (fun wg => (wg.2.headI.open_, (simWeekSellReason p atrv wg.2).1,
                        (simWeekSellReason p atrv wg.2).2)) :=
  ⟨rfl, runWeeks_proj p atrv gs c⟩

lemma stop_le_monday (monday atrv m f : ℚ) (hmon : 0 < monday) (hatr : 0 ≤ atrv)
    (hm : 0 ≤ m) (hf : 0 ≤ f) :
    stop_loss_price monday atrv m f ≤ monday := by
  apply max_le
  · nlinarith
  · nlinarith

lemma sell_bounds (p : Params) (atrv : ℚ) (g : List Bar)
    (hne : g ≠ []) (hmon : 0 < g.headI.open_) (hatr : 0 ≤ atrv)
    (hs : 0 ≤ p.strike_pct) (hm : 0 ≤ p.atr_multiplier) (hf : 0 ≤ p.max_loss_pct) :
    g.headI.open_ * (1 - p.max_loss_pct) ≤ (simWeekSellReason p atrv g).1 ∧
    (simWeekSellReason p atrv g).1 ≤ g.headI.open_ * (1 + p.strike_pct) ∧
    stop_loss_price g.headI.open_ atrv p.atr_multiplier p.max_loss_pct
        ≤ (simWeekSellReason p atrv g).1 := by
  have hstop_mon :=
    stop_le_monday g.headI.open_ atrv p.atr_multiplier p.max_loss_pct hmon hatr hm hf
  have hmon_cap : g.headI.open_ ≤ g.headI.open_ * (1 + p.strike_pct) := by nlinarith
  cases hfind : g.find? (fun b => decide
      (b.close ≤ stop_loss_price g.headI.open_ atrv p.atr_multiplier p.max_loss_pct)) with
  | some b =>
    rw [simWeekSellReason_eq]
    simp only [hfind]
    exact ⟨le_max_right _ _, le_trans hstop_mon hmon_cap, le_refl _⟩
  | none =>
    have hfri : stop_loss_price g.headI.open_ atrv p.atr_multiplier p.max_loss_pct
        < g.getLastI.close := by
      have hnot := List.find?_eq_none.mp hfind g.getLastI (getLastI_mem g hne)
      simp only [decide_eq_true_eq, not_le] at hnot
      exact hnot
    have hminstop : stop_loss_price g.headI.open_ atrv p.atr_multiplier p.max_loss_pct
        ≤ min g.getLastI.close (g.headI.open_ * (1 + p.strike_pct)) :=
      le_min hfri.le (le_trans hstop_mon hmon_cap)
    rw [simWeekSellReason_eq]
    simp only [hfind]
    exact ⟨le_trans (le_max_right _ _) hminstop, min_le_right _ _, hminstop⟩

lemma weekly_return_bounds (p : Params) (atrv : ℚ) (g : List Bar)
    (hne : g ≠ []) (hmon : 0 < g.headI.open_) (hatr : 0 ≤ atrv)
    (hs : 0 ≤ p.strike_pct) (hm : 0 ≤ p.atr_multiplier) (hf : 0 ≤ p.max_loss_pct) :
    -p.max_loss_pct ≤ ((simWeekSellReason p atrv g).1 - g.headI.open_) / g.headI.open_ ∧
    ((simWeekSellReason p atrv g).1 - g.headI.open_) / g.headI.open_ ≤ p.strike_pct := by
  obtain ⟨h1, h2, _⟩ := sell_bounds p atrv g hne hmon hatr hs hm hf
  constructor
  · rw [le_div_iff hmon]
    nlinarith
  · rw [div_le_iff hmon]
    nlinarith

lemma runWeeks_bounds (p : Params) (atrv : ℚ)
    (hatr : 0 ≤ atrv) (hs : 0 ≤ p.strike_pct)
    (hf1 : 1/20 ≤ p.max_loss_pct) (hf2 : p.max_loss_pct ≤ 1/5) (hm : 1 ≤ p.atr_multiplier) :
    ∀ (gs : List (ℕ × List Bar)) (c : ℚ), 0 < c →
      (∀ wg ∈ gs, 2 ≤ wg.2.length → 0 < wg.2.headI.open_) →
      (∀ o ∈ (runWeeks p atrv gs c).2,
        o.monday_price * (1 - p.max_loss_pct) ≤ o.sell_price ∧
        o.sell_price ≤ o.monday_price * (1 + p.strike_pct) ∧
        stop_loss_price o.monday_price atrv p.atr_multiplier p.max_loss_pct ≤ o.sell_price ∧
        -(p.max_loss_pct * 100) ≤ o.weekly_return_pct ∧
        o.weekly_return_pct ≤ p.strike_pct * 100) ∧
      0 < (runWeeks p atrv gs c).1 := by
  intro gs
  induction gs with
  | nil =>
    intro c hc _
    exact ⟨by simp [runWeeks], hc⟩
  | cons wg rest ih =>
    intro c hc hmon
    by_cases hlen : wg.2.length < 2
    · simp only [runWeeks, if_pos hlen]
      exact ih c hc (fun x hx => hmon x (List.mem_cons_of_mem _ hx))
    · have h2 : 2 ≤ wg.2.length := Nat.not_lt.mp hlen
      have hne : wg.2 ≠ [] := by
        intro hnil; rw [hnil] at h2; simp at h2
      have hmon0 : 0 < wg.2.headI.open_ := hmon wg (List.mem_cons_self _ _) h2
      obtain ⟨hb1, hb2, hb3⟩ :=
        sell_bounds p atrv wg.2 hne hmon0 hatr hs (by linarith) (by linarith)
      obtain ⟨hr1, hr2⟩ :=
        weekly_return_bounds p atrv wg.2 hne hmon0 hatr hs (by linarith) (by linarith)
      have hcap : 0 < (mkOutcome p atrv wg c).capital_after_week := by
        rw [mkOutcome_capital]
        have hpos : (0 : ℚ)
            < 1 + ((simWeekSellReason p atrv wg.2).1 - wg.2.headI.open_) / wg.2.headI.open_ := by
          linarith
        exact mul_pos hc hpos
      obtain ⟨ihout, ihcap⟩ := ih _ hcap (fun x hx => hmon x (List.mem_cons_of_mem _ hx))
      simp only [runWeeks, if_neg hlen]
      refine ⟨?_, ihcap⟩
      intro o ho
      rcases List.mem_cons.mp ho with rfl | ho
      · refine ⟨?_, ?_, ?_, ?_, ?_⟩
        · rw [mkOutcome_monday, mkOutcome_sell]; exact hb1
        · rw [mkOutcome_monday, mkOutcome_sell]; exact hb2
        · rw [mkOutcome_monday, mkOutcome_sell]; exact hb3
        · rw [mkOutcome_pct]; linarith
        · rw [mkOutcome_pct]; linarith
      · exact ihout o ho

/-- Parameters with strikePct 0, used by the C10 counterexample. -/
def c10p : Params := ⟨1/10, 1, 0, 12⟩

/-- A 2-bar week opening at 100 with closes above 100. -/
def c10week : List Bar := [⟨0, 100, 102, 99, 101⟩, ⟨1, 101, 103, 100, 102⟩]

/-- C10 counterexample: with ATR 0 and strikePct 0 (both allowed by the
hypotheses of the claim) a week whose closes all stay above the stop
sells at min(fridayClose, cap) = cap = mondayOpen, which equals the
stop level: the no-hit sell price does not strictly exceed the stop. -/
theorem c10_exceeds_stop_counterexample :
    (simWeekSellReason c10p 0 c10week).2 = ExitReason.heldToFridayOrCapped ∧
    (simWeekSellReason c10p 0 c10week).1
        = stop_loss_price c10week.headI.open_ 0 c10p.atr_multiplier c10p.max_loss_pct := by
  have hfind : c10week.find? (fun b => decide
      (b.close ≤ stop_loss_price c10week.headI.open_ 0 c10p.atr_multiplier c10p.max_loss_pct))
        = none := by
    apply List.find?_eq_none.mpr
    intro x hx
    fin_cases hx <;> norm_num [stop_loss_price, c10p, c10week, max_def]
  rw [simWeekSellReason_eq]
  simp only [hfind]
  refine ⟨by trivial, ?_⟩
  norm_num [c10week, c10p, stop_loss_price, max_def, min_def, List.getLastI]

/-- C10 (amended): for every simulated week (at least 2 bars) with a
positive Monday open, under non-negative ATR, strikePct at least 0,
maxLossFraction in [1/20, 1/5] and the slider-validated ATR multiplier
at least 1, each recorded weekly return lies in the interval
[-maxLossFraction, strikePct] (stated in percent); the sell price lies
between mondayOpen * (1 - maxLossFraction) and mondayOpen *
(1 + strikePct) and is at least the weekly stop level — equality with
the stop is possible when atrMultiplier * ATR = 0 and strikePct = 0, so
the no-hit sell price need not strictly exceed the stop; consequently
capital remains strictly positive after every week. -/
theorem c10_week_return_bounds_amended (p : Params) (atrv : ℚ)
    (gs : List (ℕ × List Bar))
    (hatr : 0 ≤ atrv) (hs : 0 ≤ p.strike_pct)
    (hf1 : 1/20 ≤ p.max_loss_pct) (hf2 : p.max_loss_pct ≤ 1/5)
    (hm : 1 ≤ p.atr_multiplier)
    (hmon : ∀ wg ∈ gs, 2 ≤ wg.2.length → 0 < wg.2.headI.open_) :
    (∀ o ∈ (runWeeks p atrv gs 1).2,
      o.monday_price * (1 - p.max_loss_pct) ≤ o.sell_price ∧
      o.sell_price ≤ o.monday_price * (1 + p.strike_pct) ∧
      stop_loss_price o.monday_price atrv p.atr_multiplier p.max_loss_pct ≤ o.sell_price ∧
      -(p.max_loss_pct * 100) ≤ o.weekly_return_pct ∧
      o.weekly_return_pct ≤ p.strike_pct * 100) ∧
    0 < (runWeeks p atrv gs 1).1 :=
  runWeeks_bounds p atrv hatr hs hf1 hf2 hm gs 1 one_pos hmon

/-- Slider-style parameters used by several concrete witnesses. -/
def c10wp : Params := ⟨1/10, 2, 1/50, 12⟩

/-- Witness for C10 (amended) at a concrete one-week simulation. -/
theorem c10_week_return_bounds_amended_witness :
    (0:ℚ) ≤ 1 ∧ (0:ℚ) ≤ c10wp.strike_pct ∧ (1/20:ℚ) ≤ c10wp.max_loss_pct ∧
    c10wp.max_loss_pct ≤ 1/5 ∧ (1:ℚ) ≤ c10wp.atr_multiplier ∧
    ((∀ o ∈ (runWeeks c10wp 1 [(0, c10week)] 1).2,
      o.monday_price * (1 - c10wp.max_loss_pct) ≤ o.sell_price ∧
      o.sell_price ≤ o.monday_price * (1 + c10wp.strike_pct) ∧
      stop_loss_price o.monday_price 1 c10wp.atr_multiplier c10wp.max_loss_pct ≤ o.sell_price ∧
      -(c10wp.max_loss_pct * 100) ≤ o.weekly_return_pct ∧
      o.weekly_return_pct ≤ c10wp.strike_pct * 100) ∧
    0 < (runWeeks c10wp 1 [(0, c10week)] 1).1) :=
  ⟨by norm_num, by norm_num [c10wp], by norm_num [c10wp], by norm_num [c10wp],
   by norm_num [c10wp],
   c10_week_return_bounds_amended c10wp 1 [(0, c10week)] (by norm_num)
     (by norm_num [c10wp]) (by norm_num [c10wp]) (by norm_num [c10wp]) (by norm_num [c10wp])
     (by
       intro wg hwg _
       simp only [List.mem_singleton] at hwg
       subst hwg
       norm_num [c10week])⟩

/-- One call quote of the option chain snapshot: strike and bid. -/
structure OptionQuote where
  strike : ℚ
  bid : ℚ
deriving DecidableEq, Inhabited

/-- One option expiration: calendar days from today until expiry, and
the call side of its chain. -/
structure Expiration where
  daysOut : ℤ
  calls : List OptionQuote
deriving DecidableEq, Inhabited

/-- The premium selection outcome (src/app.py lines 116-139). -/
structure PremiumChoice where
  exp_days : ℤ
  strike : ℚ
  bid : ℚ
  used_fallback : Bool
deriving DecidableEq, Inhabited

/-- Failure modes of the script: the insufficient-data message of the
14-bar guard, the NameError raised at line 125 when otm_calls was never
assigned, and the IndexError raised by iloc on an empty calls table. -/
inductive EngineError where
  | insufficientHistory (count : ℕ)
  | nameErrorOtmCalls
  | indexErrorEmptyCalls
deriving DecidableEq, Inhabited

/-- Step of the fold that finds the row a stable ascending sort by
strike puts first. -/
def minStep (acc : Option OptionQuote) (c : OptionQuote) : Option OptionQuote :=
  match acc with
  | none => some c
  | some b => if c.strike < b.strike then some c else some b

/-- Step of the fold that finds the row a stable ascending sort by
strike puts last. -/
def maxStep (acc : Option OptionQuote) (c : OptionQuote) : Option OptionQuote :=
  match acc with
  | none => some c
  | some b => if b.strike ≤ c.strike then some c else some b

/-- The first occurrence of the minimal strike, which is the row that
a stable sort by strike and iloc 0 selects (src/app.py line 127). -/
def argminStrikeFirst (l : List OptionQuote) : Option OptionQuote := l.foldl minStep none

/-- The last occurrence of the maximal strike, which is the row that
a stable sort by strike and iloc -1 selects (src/app.py line 132). -/
def argmaxStrikeLast (l : List OptionQuote) : Option OptionQuote := l.foldl maxStep none

lemma argmin_go :
    ∀ (l : List OptionQuote) (b c : OptionQuote), l.foldl minStep (some b) = some c →
      (c = b ∨ c ∈ l) ∧ c.strike ≤ b.strike ∧ ∀ d ∈ l, c.strike ≤ d.strike := by
  intro l
  induction l with
  | nil =>
    intro b c h
    simp only [List.foldl_nil] at h
    cases h
    exact ⟨Or.inl rfl, le_refl _, by simp⟩
  | cons x xs ih =>
    intro b c h
    simp only [List.foldl_cons, minStep] at h
    by_cases hx : x.strike < b.strike
    · rw [if_pos hx] at h
      obtain ⟨hmem, hle, hall⟩ := ih x c h
      refine ⟨?_, le_trans hle hx.le, ?_⟩
      · rcases hmem with rfl | hmem
        · exact Or.inr (List.mem_cons_self _ _)
        · exact Or.inr (List.mem_cons_of_mem _ hmem)
      · intro d hd
        rcases List.mem_cons.mp hd with rfl | hd
        · exact hle
        · exact hall d hd
    · rw [if_neg hx] at h
      obtain ⟨hmem, hle, hall⟩ := ih b c h
      push_neg at hx
      refine ⟨?_, hle, ?_⟩
      · rcases hmem with rfl | hmem
        · exact Or.inl rfl
        · exact Or.inr (List.mem_cons_of_mem _ hmem)
      · intro d hd
        rcases List.mem_cons.mp hd with rfl | hd
        · exact le_trans hle hx
        · exact hall d hd

lemma argmax_go :
    ∀ (l : List OptionQuote) (b c : OptionQuote), l.foldl maxStep (some b) = some c →
      (c = b ∨ c ∈ l) ∧ b.strike ≤ c.strike ∧ ∀ d ∈ l, d.strike ≤ c.strike := by
  intro l
  induction l with
  | nil =>
    intro b c h
    simp only [List.foldl_nil] at h
    cases h
    exact ⟨Or.inl rfl, le_refl _, by simp⟩
  | cons x xs ih =>
    intro b c h
    simp only [List.foldl_cons, maxStep] at h
    by_cases hx : b.strike ≤ x.strike
    · rw [if_pos hx] at h
      obtain ⟨hmem, hle, hall⟩ := ih x c h
      refine ⟨?_, le_trans hx hle, ?_⟩
      · rcases hmem with rfl | hmem
        · exact Or.inr (List.mem_cons_self _ _)
        · exact Or.inr (List.mem_cons_of_mem _ hmem)
      · intro d hd
        rcases List.mem_cons.mp hd with rfl | hd
        · exact hle
        · exact hall d hd
    · rw [if_neg hx] at h
      obtain ⟨hmem, hle, hall⟩ := ih b c h
      push_neg at hx
      refine ⟨?_, hle, ?_⟩
      · rcases hmem with rfl | hmem
        · exact Or.inl rfl
        · exact Or.inr (List.mem_cons_of_mem _ hmem)
      · intro d hd
        rcases List.mem_cons.mp hd with rfl | hd
        · exact le_trans hx.le hle
        · exact hall d hd

lemma argminStrikeFirst_spec (l : List OptionQuote) (c : OptionQuote)
    (h : argminStrikeFirst l = some c) : c ∈ l ∧ ∀ d ∈ l, c.strike ≤ d.strike := by
  cases l with
  | nil => simp [argminStrikeFirst] at h
  | cons x xs =>
    have h' : xs.foldl minStep (some x) = some c := by
      simpa [argminStrikeFirst, List.foldl_cons, minStep] using h
    obtain ⟨hmem, hle, hall⟩ := argmin_go xs x c h'
    refine ⟨?_, ?_⟩
    · rcases hmem with rfl | hmem
      · exact List.mem_cons_self _ _
      · exact List.mem_cons_of_mem _ hmem
    · intro d hd
      rcases List.mem_cons.mp hd with rfl | hd
      · exact hle
      · exact hall d hd

lemma argmaxStrikeLast_spec (l : List OptionQuote) (c : OptionQuote)
    (h : argmaxStrikeLast l = some c) : c ∈ l ∧ ∀ d ∈ l, d.strike ≤ c.strike := by
  cases l with
  | nil => simp [argmaxStrikeLast] at h
  | cons x xs =>
    have h' : xs.foldl maxStep (some x) = some c := by
      simpa [argmaxStrikeLast, List.foldl_cons, maxStep] using h
    obtain ⟨hmem, hle, hall⟩ := argmax_go xs x c h'
    refine ⟨?_, ?_⟩
    · rcases hmem with rfl | hmem
      · exact List.mem_cons_self _ _
      · exact List.mem_cons_of_mem _ hmem
    · intro d hd
      rcases List.mem_cons.mp hd with rfl | hd
      · exact hle
      · exact hall d hd

lemma foldl_minStep_some :
    ∀ (l : List OptionQuote) (b : OptionQuote), ∃ c, l.foldl minStep (some b) = some c := by
  intro l
  induction l with
  | nil => intro b; exact ⟨b, rfl⟩
  | cons x xs ih =>
    intro b
    simp only [List.foldl_cons, minStep]
    by_cases hx : x.strike < b.strike
    · rw [if_pos hx]; exact ih x
    · rw [if_neg hx]; exact ih b

lemma argminStrikeFirst_isSome (l : List OptionQuote) (h : l ≠ []) :
    ∃ c, argminStrikeFirst l = some c := by
  cases l with
  | nil => exact absurd rfl h
  | cons x xs =>
    obtain ⟨c, hc⟩ := foldl_minStep_some xs x
    exact ⟨c, by simpa [argminStrikeFirst, List.foldl_cons, minStep] using hc⟩

/-- The premium-selection part of the script (src/app.py lines
107-139): keep expirations at least 5 calendar days out; with none
remaining the later read of otm_calls raises a NameError; otherwise
take the first remaining expiration, keep its calls with strikes at or
above the target, pick the lowest such strike, or with none fall back
to the highest available strike with a warning (an IndexError if the
calls table is empty). -/
def premiumSelect (expirations : List Expiration) (entry_price strike_pct : ℚ) :
    Except EngineError PremiumChoice :=
  match expirations.filter (fun x => 5 ≤ x.daysOut) with
  | [] => .error .nameErrorOtmCalls
  | chosen_exp :: _ =>
    match argminStrikeFirst
        (chosen_exp.calls.filter (fun c => entry_price * (1 + strike_pct) ≤ c.strike)) with
    | some c => .ok ⟨chosen_exp.daysOut, c.strike, c.bid, false⟩
    | none =>
      match argmaxStrikeLast chosen_exp.calls with
      | some c => .ok ⟨chosen_exp.daysOut, c.strike, c.bid, true⟩
      | none => .error .indexErrorEmptyCalls

/-- The rational core of every figure the script prints.  The baseline
drawdown percentage is an Option: dividing by a zero entry price yields
a non-finite float, modelled as none. -/
structure CoreResults where
  entry_price : ℚ
  atr_value : ℚ
  stop_loss_init : ℚ
  stop_loss_drawdown_pct : Option ℚ
  chosen_exp_days : ℤ
  strike_price_opt : ℚ
  bid_price : ℚ
  used_fallback : Bool
  total_premium : ℚ
  annualized_return : ℚ
  weekly_returns : List Outcome
  capital : ℚ
  cumulative_return : ℚ
  final_capital_value : ℚ
  combined_capital_value : ℚ
  num_weeks : ℕ
  years : ℚ
deriving DecidableEq, Inhabited

/-- Assembly of the result record (src/app.py lines 72-226) once a
premium choice has been made. -/
def mkResults (hist : List Bar) (entry_price : ℚ) (p : Params) (choice : PremiumChoice) :
    CoreResults :=
  let atr_value := atr hist
  let stop_loss_init := stop_loss_price entry_price atr_value p.atr_multiplier p.max_loss_pct
  let total_premium := choice.bid * (p.weeks_of_history : ℚ)
  let sim := runWeeks p atr_value (groupByWeek hist) 1
  let num_weeks := sim.2.length
  let final_capital_value := sim.1 * entry_price
  { entry_price := entry_price
    atr_value := atr_value
    stop_loss_init := stop_loss_init
    stop_loss_drawdown_pct :=
      if entry_price = 0 then none
      else some ((stop_loss_init - entry_price) / entry_price * 100)
    chosen_exp_days := choice.exp_days
    strike_price_opt := choice.strike
    bid_price := choice.bid
    used_fallback := choice.used_fallback
    total_premium := total_premium
    annualized_return :=
      if entry_price ≠ 0 then total_premium / entry_price * (52 / (p.weeks_of_history : ℚ)) * 100
      else 0
    weekly_returns := sim.2
    capital := sim.1
    cumulative_return := sim.1 - 1
    final_capital_value := final_capital_value
    combined_capital_value := final_capital_value + total_premium
    num_weeks := num_weeks
    years := if 0 < num_weeks then (num_weeks : ℚ) / 52 else 1 }

/-- The whole engine (src/app.py lines 66-226): the 14-bar guard, then
the premium selection (whose failure aborts the straight-line script),
then the weekly simulation and the aggregation. -/
def engineCore (hist : List Bar) (entry_price : ℚ) (expirations : List Expiration)
    (p : Params) : Except EngineError CoreResults :=
  if hist.length < 14 then .error (.insufficientHistory hist.length)
  else
    match premiumSelect expirations entry_price p.strike_pct with
    | .error err => .error err
    | .ok choice => .ok (mkResults hist entry_price p choice)

/-- Annualized stock-only return (src/app.py lines 218-221), over the
reals because of the fractional power. -/
noncomputable def annualized_stock_return (r : CoreResults) : ℝ :=
  if 0 < r.capital ∧ 0 < r.years then
    ((r.capital : ℝ) ^ ((1 : ℝ) / (r.years : ℝ))) - 1
  else 0

/-- Annualized premium-inclusive return (src/app.py lines 223-226),
over the reals because of the fractional power. -/
noncomputable def annualized_combined_return (r : CoreResults) : ℝ :=
  if 0 < r.combined_capital_value ∧ 0 < r.entry_price ∧ 0 < r.years then
    (((r.combined_capital_value / r.entry_price : ℚ) : ℝ) ^ ((1 : ℝ) / (r.years : ℝ))) - 1
  else 0

lemma engineCore_ok_elim {hist : List Bar} {e : ℚ} {exps : List Expiration} {p : Params}
    {r : CoreResults} (h : engineCore hist e exps p = .ok r) :
    14 ≤ hist.length ∧ ∃ choice, premiumSelect exps e p.strike_pct = .ok choice ∧
      r = mkResults hist e p choice := by
  unfold engineCore at h
  split at h
  · exact absurd h (by simp)
  · rename_i hlen
    refine ⟨by omega, ?_⟩
    cases hps : premiumSelect exps e p.strike_pct with
    | error err => rw [hps] at h; simp at h
    | ok choice =>
      rw [hps] at h
      simp only [Except.ok.injEq] at h
      exact ⟨choice, rfl, h.symm⟩

lemma runWeeks_capital_of_nil (p : Params) (atrv : ℚ) :
    ∀ (gs : List (ℕ × List Bar)) (c : ℚ), (runWeeks p atrv gs c).2 = [] →
      (runWeeks p atrv gs c).1 = c := by
  intro gs
  induction gs with
  | nil => intro c _; rfl
  | cons wg rest ih =>
    intro c h
    by_cases hlen : wg.2.length < 2
    · simp only [runWeeks, if_pos hlen] at h ⊢
      exact ih c h
    · simp only [runWeeks, if_neg hlen] at h
      exact absurd h (by simp)

/-- C8: with fewer than 14 bars the engine reports InsufficientHistory
carrying the retrieved bar count and performs no further computation:
no ATR, no stop-loss, no simulation, no aggregate figures are
produced. -/
theorem c8_insufficient_history (hist : List Bar) (e : ℚ) (exps : List Expiration)
    (p : Params) (h : hist.length < 14) :
    engineCore hist e exps p = .error (.insufficientHistory hist.length) := by
  unfold engineCore
  rw [if_pos h]

/-- Witness for C8 at a concrete 13-bar history. -/
theorem c8_insufficient_history_witness :
    c3tail.length < 14 ∧
    engineCore c3tail 100 [] c10wp = .error (.insufficientHistory c3tail.length) :=
  ⟨by simp [c3tail], c8_insufficient_history c3tail 100 [] c10wp (by simp [c3tail])⟩

/-- A 14-bar history with every bar in its own calendar week, so that
no week reaches the 2 bars needed for simulation. -/
def c6hist : List Bar :=
  [⟨0, 100, 100, 100, 100⟩, ⟨7, 100, 100, 100, 100⟩, ⟨14, 100, 100, 100, 100⟩,
   ⟨21, 100, 100, 100, 100⟩, ⟨28, 100, 100, 100, 100⟩, ⟨35, 100, 100, 100, 100⟩,
   ⟨42, 100, 100, 100, 100⟩, ⟨49, 100, 100, 100, 100⟩, ⟨56, 100, 100, 100, 100⟩,
   ⟨63, 100, 100, 100, 100⟩, ⟨70, 100, 100, 100, 100⟩, ⟨77, 100, 100, 100, 100⟩,
   ⟨84, 100, 100, 100, 100⟩, ⟨91, 100, 100, 100, 100⟩]

/-- A single eligible expiration whose only call is above target. -/
def c6exps : List Expiration := [⟨7, [⟨105, 2⟩]⟩]

lemma c6premium : premiumSelect c6exps 100 c10wp.strike_pct = .ok ⟨7, 105, 2, false⟩ := by
  norm_num [premiumSelect, c6exps, c10wp, argminStrikeFirst, minStep, List.filter,
    decide_eq_true_eq]

lemma c6engine_ok :
    engineCore c6hist 100 c6exps c10wp = .ok (mkResults c6hist 100 c10wp ⟨7, 105, 2, false⟩) := by
  unfold engineCore
  rw [if_neg (by simp [c6hist]), c6premium]

lemma runWeeks_skip_of_short (p : Params) (atrv : ℚ) :
    ∀ (gs : List (ℕ × List Bar)) (c : ℚ), (∀ wg ∈ gs, wg.2.length < 2) →
      runWeeks p atrv gs c = (c, []) := by
  intro gs
  induction gs with
  | nil => intro c _; rfl
  | cons wg rest ih =>
    intro c hshort
    have hlen : wg.2.length < 2 := hshort wg (List.mem_cons_self _ _)
    simp only [runWeeks, if_pos hlen]
    exact ih c (fun x hx => hshort x (List.mem_cons_of_mem _ hx))

lemma c6group : groupByWeek c6hist =
    [(0, [⟨0, 100, 100, 100, 100⟩]), (1, [⟨7, 100, 100, 100, 100⟩]),
     (2, [⟨14, 100, 100, 100, 100⟩]), (3, [⟨21, 100, 100, 100, 100⟩]),
     (4, [⟨28, 100, 100, 100, 100⟩]), (5, [⟨35, 100, 100, 100, 100⟩]),
     (6, [⟨42, 100, 100, 100, 100⟩]), (7, [⟨49, 100, 100, 100, 100⟩]),
     (8, [⟨56, 100, 100, 100, 100⟩]), (9, [⟨63, 100, 100, 100, 100⟩]),
     (10, [⟨70, 100, 100, 100, 100⟩]), (11, [⟨77, 100, 100, 100, 100⟩]),
     (12, [⟨84, 100, 100, 100, 100⟩]), (13, [⟨91, 100, 100, 100, 100⟩])] := by
  norm_num [groupByWeek, c6hist, weekOf]

lemma c6sim : runWeeks c10wp (atr c6hist) (groupByWeek c6hist) 1 = (1, []) := by
  rw [c6group]
  apply runWeeks_skip_of_short
  intro wg hwg
  fin_cases hwg <;> simp

/-- The engine run of the zero-simulated-weeks scenario. -/
def c6run : CoreResults := (engineCore c6hist 100 c6exps c10wp).toOption.getD default

lemma c6run_eq : c6run = mkResults c6hist 100 c10wp ⟨7, 105, 2, false⟩ := by
  unfold c6run
  rw [c6engine_ok]
  rfl

lemma c6run_num : c6run.num_weeks = 0 := by
  rw [c6run_eq]; simp [mkResults, c6sim]

lemma c6run_years : c6run.years = 1 := by
  rw [c6run_eq]; simp [mkResults, c6sim]

lemma c6run_entry : c6run.entry_price = 100 := by
  rw [c6run_eq]; simp [mkResults]

lemma c6run_combined : c6run.combined_capital_value = 124 := by
  rw [c6run_eq]
  simp only [mkResults, c6sim]
  norm_num [c10wp]

lemma c6run_tp : c6run.total_premium = 24 := by
  rw [c6run_eq]
  simp only [mkResults]
  norm_num [c10wp]

/-- C6 (amended): when the number of simulated weeks is 0, years is
treated as 1 (avoiding division by zero) and the stock-only annualized
return is 0, but the premium-inclusive annualized return is not
reported as zero: it equals totalPremium / entryPrice whenever the
entry price and the combined capital are positive (and 0 otherwise), so
it vanishes only when the projected premium does. -/
theorem c6_zero_weeks_amended (hist : List Bar) (e : ℚ) (exps : List Expiration)
    (p : Params) (r : CoreResults) (h : engineCore hist e exps p = .ok r)
    (h0 : r.num_weeks = 0) :
    r.years = 1 ∧ annualized_stock_return r = 0 ∧
    annualized_combined_return r
      = (if 0 < r.combined_capital_value ∧ 0 < r.entry_price
         then ((r.total_premium / r.entry_price : ℚ) : ℝ) else 0) := by
  obtain ⟨hlen, choice, hps, rfl⟩ := engineCore_ok_elim h
  have hnum : (runWeeks p (atr hist) (groupByWeek hist) 1).2.length = 0 := by
    simpa [mkResults] using h0
  have hnil : (runWeeks p (atr hist) (groupByWeek hist) 1).2 = [] :=
    List.length_eq_zero.mp hnum
  have hcap : (runWeeks p (atr hist) (groupByWeek hist) 1).1 = 1 :=
    runWeeks_capital_of_nil p (atr hist) _ 1 hnil
  have hyears : (mkResults hist e p choice).years = 1 := by
    simp [mkResults, hnum]
  have hcap' : (mkResults hist e p choice).capital = 1 := by
    simp [mkResults, hcap]
  have hent : (mkResults hist e p choice).entry_price = e := by simp [mkResults]
  have htp : (mkResults hist e p choice).total_premium
      = choice.bid * (p.weeks_of_history : ℚ) := by simp [mkResults]
  have hcomb : (mkResults hist e p choice).combined_capital_value
      = e + choice.bid * (p.weeks_of_history : ℚ) := by
    simp [mkResults, hcap]
  refine ⟨hyears, ?_, ?_⟩
  · unfold annualized_stock_return
    rw [hcap', hyears]
    rw [if_pos (by norm_num)]
    norm_num [Real.one_rpow]
  · by_cases hg : 0 < (mkResults hist e p choice).combined_capital_value ∧
        0 < (mkResults hist e p choice).entry_price
    · rw [if_pos hg]
      unfold annualized_combined_return
      rw [if_pos ⟨hg.1, hg.2, by rw [hyears]; norm_num⟩]
      rw [hyears]
      have hexp : (1 : ℝ) / ((1 : ℚ) : ℝ) = 1 := by norm_num
      rw [hexp, Real.rpow_one]
      have he0 : e ≠ 0 := by
        rw [hent] at hg
        exact ne_of_gt hg.2
      have hq : (mkResults hist e p choice).combined_capital_value
            / (mkResults hist e p choice).entry_price - 1
          = (mkResults hist e p choice).total_premium
            / (mkResults hist e p choice).entry_price := by
        rw [hcomb, htp, hent]
        field_simp
      rw [show (((mkResults hist e p choice).combined_capital_value
            / (mkResults hist e p choice).entry_price : ℚ) : ℝ) - 1
          = (((mkResults hist e p choice).combined_capital_value
            / (mkResults hist e p choice).entry_price - 1 : ℚ) : ℝ) by push_cast; ring]
      rw [hq]
    · rw [if_neg hg]
      unfold annualized_combined_return
      rw [if_neg (fun hgg => hg ⟨hgg.1, hgg.2.1⟩)]

/-- C6 counterexample: a run with 14 one-bar weeks (0 simulated weeks),
entry price 100 and projected premium 24 yields an annualized
premium-inclusive return of 24 percent, not zero. -/
theorem c6_zero_weeks_counterexample :
    engineCore c6hist 100 c6exps c10wp = Except.ok c6run ∧
    c6run.num_weeks = 0 ∧
    annualized_combined_return c6run ≠ 0 := by
  refine ⟨by rw [c6engine_ok, c6run_eq], c6run_num, ?_⟩
  unfold annualized_combined_return
  rw [c6run_years, c6run_combined, c6run_entry]
  rw [if_pos (by norm_num)]
  rw [show (1 : ℝ) / ((1 : ℚ) : ℝ) = 1 by norm_num, Real.rpow_one]
  norm_num

/-- Witness for C6 (amended) at the concrete zero-weeks run. -/
theorem c6_zero_weeks_amended_witness :
    engineCore c6hist 100 c6exps c10wp = Except.ok c6run ∧ c6run.num_weeks = 0 ∧
    (c6run.years = 1 ∧ annualized_stock_return c6run = 0 ∧
     annualized_combined_return c6run
       = (if 0 < c6run.combined_capital_value ∧ 0 < c6run.entry_price
          then ((c6run.total_premium / c6run.entry_price : ℚ) : ℝ) else 0)) :=
  ⟨by rw [c6engine_ok, c6run_eq], c6run_num,
   c6_zero_weeks_amended c6hist 100 c6exps c10wp c6run
     (by rw [c6engine_ok, c6run_eq]) c6run_num⟩

/-- An option chain whose only expiration is 2 days out. -/
def c5exps : List Expiration := [⟨2, [⟨105, 2⟩]⟩]

/-- C5: with no expiration at least 5 days out the script does not
proceed with zero premium figures: line 125 reads otm_calls, which was
only assigned inside the nonempty branch, so the run aborts with a
NameError before the weekly simulation produces anything. -/
theorem c5_no_expiration_crash :
    14 ≤ c6hist.length ∧
    engineCore c6hist 100 c5exps c10wp = .error .nameErrorOtmCalls := by
  refine ⟨by simp [c6hist], ?_⟩
  unfold engineCore
  rw [if_neg (by simp [c6hist])]
  have hps : premiumSelect c5exps 100 c10wp.strike_pct = .error .nameErrorOtmCalls := by
    norm_num [premiumSelect, c5exps, decide_eq_true_eq]
  rw [hps]

/-- A 14-bar history with twelve one-bar weeks and a final 2-bar week
that returns +2 percent. -/
def c7hist : List Bar :=
  [⟨0, 100, 100, 100, 100⟩, ⟨7, 100, 100, 100, 100⟩, ⟨14, 100, 100, 100, 100⟩,
   ⟨21, 100, 100, 100, 100⟩, ⟨28, 100, 100, 100, 100⟩, ⟨35, 100, 100, 100, 100⟩,
   ⟨42, 100, 100, 100, 100⟩, ⟨49, 100, 100, 100, 100⟩, ⟨56, 100, 100, 100, 100⟩,
   ⟨63, 100, 100, 100, 100⟩, ⟨70, 100, 100, 100, 100⟩, ⟨77, 100, 100, 100, 100⟩,
   ⟨84, 100, 102, 99, 101⟩, ⟨85, 101, 103, 100, 102⟩]

/-- A single eligible expiration for the zero-entry-price scenario. -/
def c7exps : List Expiration := [⟨7, [⟨110, 1⟩]⟩]

/-- Slider parameters for the zero-entry-price scenario. -/
def c7p : Params := ⟨1/10, 2, 1/20, 12⟩

lemma c7premium : premiumSelect c7exps 0 c7p.strike_pct = .ok ⟨7, 110, 1, false⟩ := by
  norm_num [premiumSelect, c7exps, c7p, argminStrikeFirst, minStep, List.filter,
    decide_eq_true_eq]

lemma c7engine_ok :
    engineCore c7hist 0 c7exps c7p = .ok (mkResults c7hist 0 c7p ⟨7, 110, 1, false⟩) := by
  unfold engineCore
  rw [if_neg (by simp [c7hist]), c7premium]

/-- The engine run of the zero-entry-price scenario. -/
def c7run : CoreResults := (engineCore c7hist 0 c7exps c7p).toOption.getD default

lemma c7run_eq : c7run = mkResults c7hist 0 c7p ⟨7, 110, 1, false⟩ := by
  unfold c7run
  rw [c7engine_ok]
  rfl

lemma c7atr : atr c7hist = 3/7 := by
  norm_num [atr, c7hist, trList, trAux, true_range, lastN, max_def, abs]

lemma c7group : groupByWeek c7hist =
    [(0, [⟨0, 100, 100, 100, 100⟩]), (1, [⟨7, 100, 100, 100, 100⟩]),
     (2, [⟨14, 100, 100, 100, 100⟩]), (3, [⟨21, 100, 100, 100, 100⟩]),
     (4, [⟨28, 100, 100, 100, 100⟩]), (5, [⟨35, 100, 100, 100, 100⟩]),
     (6, [⟨42, 100, 100, 100, 100⟩]), (7, [⟨49, 100, 100, 100, 100⟩]),
     (8, [⟨56, 100, 100, 100, 100⟩]), (9, [⟨63, 100, 100, 100, 100⟩]),
     (10, [⟨70, 100, 100, 100, 100⟩]), (11, [⟨77, 100, 100, 100, 100⟩]),
     (12, [⟨84, 100, 102, 99, 101⟩, ⟨85, 101, 103, 100, 102⟩])] := by
  norm_num [groupByWeek, c7hist, weekOf]

lemma runWeeks_cons_skip (p : Params) (atrv : ℚ) (wg : ℕ × List Bar)
    (rest : List (ℕ × List Bar)) (c : ℚ) (h : wg.2.length < 2) :
    runWeeks p atrv (wg :: rest) c = runWeeks p atrv rest c := by
  simp only [runWeeks, if_pos h]

lemma c7sim : runWeeks c7p (atr c7hist) (groupByWeek c7hist) 1
    = (runWeeks c7p (3/7) [(12, [⟨84, 100, 102, 99, 101⟩, ⟨85, 101, 103, 100, 102⟩])] 1) := by
  rw [c7group, c7atr]
  iterate 12 rw [runWeeks_cons_skip _ _ _ _ _ (by simp)]

lemma c7week : runWeeks c7p (3/7) [(12, [⟨84, 100, 102, 99, 101⟩, ⟨85, 101, 103, 100, 102⟩])] 1
    = (51/50, [mkOutcome c7p (3/7) (12, [⟨84, 100, 102, 99, 101⟩, ⟨85, 101, 103, 100, 102⟩]) 1]) := by
  have hcap : (mkOutcome c7p (3/7)
      (12, [⟨84, 100, 102, 99, 101⟩, ⟨85, 101, 103, 100, 102⟩]) 1).capital_after_week
        = 51/50 := by
    rw [mkOutcome_capital]
    norm_num [simWeekSellReason, c7p, stop_loss_price, List.find?, max_def, min_def,
      List.getLastI, decide_eq_true_eq]
  simp only [runWeeks]
  norm_num [hcap]

lemma c7capital : (runWeeks c7p (atr c7hist) (groupByWeek c7hist) 1).1 = 51/50 := by
  rw [c7sim, c7week]

lemma c7num : (runWeeks c7p (atr c7hist) (groupByWeek c7hist) 1).2.length = 1 := by
  rw [c7sim, c7week]
  rfl

lemma c7run_capital : c7run.capital = 51/50 := by
  rw [c7run_eq]
  simp only [mkResults]
  exact c7capital

lemma c7run_years : c7run.years = 1/52 := by
  rw [c7run_eq]
  simp only [mkResults, c7num]
  norm_num

lemma c7run_entry : c7run.entry_price = 0 := by
  rw [c7run_eq]; simp [mkResults]

lemma c7run_dd : c7run.stop_loss_drawdown_pct = none := by
  rw [c7run_eq]; simp [mkResults]

/-- C7 counterexample: at entry price 0 the engine still runs (numpy
turns the unguarded drawdown ratio into a non-finite value, modelled as
none, instead of zero), and the stock-only annualized return is
(51/50)^52 - 1, not zero: the claim that a zero entry price makes every
annualized figure resolve to zero fails, as does the claim that every
ratio with a zero denominator yields a defined zero. -/
theorem c7_entry_zero_counterexample :
    engineCore c7hist 0 c7exps c7p = Except.ok c7run ∧
    c7run.entry_price = 0 ∧
    c7run.stop_loss_drawdown_pct = none ∧
    annualized_stock_return c7run ≠ 0 := by
  refine ⟨by rw [c7engine_ok, c7run_eq], c7run_entry, c7run_dd, ?_⟩
  unfold annualized_stock_return
  rw [c7run_capital, c7run_years]
  rw [if_pos (by norm_num)]
  have hexp : (1 : ℝ) / ((1/52 : ℚ) : ℝ) = ((52 : ℕ) : ℝ) := by norm_num
  rw [hexp, Real.rpow_natCast]
  have h1 : (1 : ℝ) < ((51/50 : ℚ) : ℝ) ^ (52 : ℕ) := by
    apply one_lt_pow₀ (by norm_num)
    norm_num
  intro hzero
  rw [sub_eq_zero] at hzero
  rw [hzero] at h1
  exact lt_irrefl _ h1

/-- C7 (amended): years is always positive, so the exponents 1/years
never divide by zero; at entry price exactly 0 the guarded premium
annualized return is 0 and the guarded combined annualized return is 0
for every entry price at or below 0; but the stock-only annualized
return does not involve the entry price and is not forced to zero, and
the baseline stop-loss drawdown ratio is unguarded: at entry price 0 it
is a non-finite value (modelled none), not a defined zero. -/
theorem c7_division_guards_amended (hist : List Bar) (e : ℚ) (exps : List Expiration)
    (p : Params) (r : CoreResults) (h : engineCore hist e exps p = .ok r) :
    0 < r.years ∧
    (r.entry_price = 0 → r.annualized_return = 0 ∧ r.stop_loss_drawdown_pct = none) ∧
    (r.entry_price ≤ 0 → annualized_combined_return r = 0) := by
  obtain ⟨hlen, choice, hps, rfl⟩ := engineCore_ok_elim h
  have hent : (mkResults hist e p choice).entry_price = e := by simp [mkResults]
  refine ⟨?_, ?_, ?_⟩
  · simp only [mkResults]
    split
    · rename_i hpos
      exact div_pos (by exact_mod_cast hpos) (by norm_num)
    · norm_num
  · intro h0
    rw [hent] at h0
    subst h0
    exact ⟨by simp [mkResults], by simp [mkResults]⟩
  · intro hle
    rw [hent] at hle
    unfold annualized_combined_return
    have hne : ¬(0 < (mkResults hist e p choice).combined_capital_value ∧
        0 < (mkResults hist e p choice).entry_price ∧
        0 < (mkResults hist e p choice).years) := by
      rintro ⟨-, hpos, -⟩
      rw [hent] at hpos
      exact absurd hpos (not_lt.mpr hle)
    rw [if_neg hne]

/-- Witness for C7 (amended) at the concrete zero-entry-price run. -/
theorem c7_division_guards_amended_witness :
    engineCore c7hist 0 c7exps c7p = Except.ok c7run ∧
    (0 < c7run.years ∧
     (c7run.entry_price = 0 → c7run.annualized_return = 0 ∧
        c7run.stop_loss_drawdown_pct = none) ∧
     (c7run.entry_price ≤ 0 → annualized_combined_return c7run = 0)) :=
  ⟨by rw [c7engine_ok, c7run_eq],
   c7_division_guards_amended c7hist 0 c7exps c7p c7run (by rw [c7engine_ok, c7run_eq])⟩

lemma filter_head_min (exps : List Expiration)
    (hs : exps.Pairwise (fun a b => a.daysOut ≤ b.daysOut))
    (ce : Expiration) (rest : List Expiration)
    (hfil : exps.filter (fun x => 5 ≤ x.daysOut) = ce :: rest) :
    ∀ x ∈ exps, 5 ≤ x.daysOut → ce.daysOut ≤ x.daysOut := by
  intro x hx h5
  have hxf : x ∈ exps.filter (fun x => 5 ≤ x.daysOut) :=
    List.mem_filter.mpr ⟨hx, by simpa using h5⟩
  have hpf : (exps.filter (fun x => 5 ≤ x.daysOut)).Pairwise
      (fun a b => a.daysOut ≤ b.daysOut) :=
    List.Pairwise.sublist (List.filter_sublist exps) hs
  rw [hfil] at hxf hpf
  rcases List.mem_cons.mp hxf with rfl | hxr
  · exact le_refl _
  · exact (List.pairwise_cons.mp hpf).1 x hxr

/-- C4: the premium estimator discards expirations fewer than 5
calendar days out and, on a date-sorted expiration list, settles on the
chronologically nearest eligible expiration; among its calls it picks
the one with the smallest strike at or above entryPrice * (1 +
strikePct); if no such call exists it falls back to the call with the
largest available strike, marked as a warning-level fallback rather
than a fatal error; and the total projected premium of the engine is
the chosen bid times the number of weeks of the lookback window. -/
theorem c4_premium_selection :
    (∀ (exps : List Expiration) (e s : ℚ) (res : PremiumChoice),
      exps.Pairwise (fun a b => a.daysOut ≤ b.daysOut) →
      premiumSelect exps e s = .ok res →
      (5 ≤ res.exp_days ∧
       (∀ x ∈ exps, 5 ≤ x.daysOut → res.exp_days ≤ x.daysOut) ∧
       ((∃ c ∈ (exps.filter (fun x => 5 ≤ x.daysOut)).headI.calls,
           e * (1 + s) ≤ c.strike) →
         res.used_fallback = false ∧ e * (1 + s) ≤ res.strike ∧
         ∀ d ∈ (exps.filter (fun x => 5 ≤ x.daysOut)).headI.calls,
           e * (1 + s) ≤ d.strike → res.strike ≤ d.strike) ∧
       ((∀ c ∈ (exps.filter (fun x => 5 ≤ x.daysOut)).headI.calls,
           c.strike < e * (1 + s)) →
         res.used_fallback = true ∧
         ∀ d ∈ (exps.filter (fun x => 5 ≤ x.daysOut)).headI.calls,
           d.strike ≤ res.strike) ∧
       (∃ q ∈ (exps.filter (fun x => 5 ≤ x.daysOut)).headI.calls,
         res.strike = q.strike ∧ res.bid = q.bid))) ∧
    (∀ (hist : List Bar) (e : ℚ) (exps : List Expiration) (p : Params) (r : CoreResults),
      engineCore hist e exps p = .ok r →
      r.total_premium = r.bid_price * (p.weeks_of_history : ℚ)) := by
  constructor
  · intro exps e s res hs hres
    unfold premiumSelect at hres
    cases hfil : exps.filter (fun x => 5 ≤ x.daysOut) with
    | nil => rw [hfil] at hres; simp at hres
    | cons ce rest =>
      rw [hfil] at hres
      have hres' : (match argminStrikeFirst
            (ce.calls.filter (fun c => e * (1 + s) ≤ c.strike)) with
          | some c =>
              Except.ok (⟨ce.daysOut, c.strike, c.bid, false⟩ : PremiumChoice)
          | none =>
            match argmaxStrikeLast ce.calls with
            | some c =>
                Except.ok (⟨ce.daysOut, c.strike, c.bid, true⟩ : PremiumChoice)
            | none => Except.error EngineError.indexErrorEmptyCalls)
          = Except.ok res := hres
      clear hres
      have hce_mem : ce ∈ exps.filter (fun x => 5 ≤ x.daysOut) := by
        rw [hfil]; exact List.mem_cons_self _ _
      have hce5 : 5 ≤ ce.daysOut := by
        have hmem := (List.mem_filter.mp hce_mem).2
        simpa using hmem
      have hnear := filter_head_min exps hs ce rest hfil
      simp only [List.headI_cons]
      cases hmin : argminStrikeFirst (ce.calls.filter (fun c => e * (1 + s) ≤ c.strike)) with
      | some c =>
        rw [hmin] at hres'
        simp only [Except.ok.injEq] at hres'
        obtain rfl := hres'.symm
        obtain ⟨hcmem, hcmin⟩ := argminStrikeFirst_spec _ _ hmin
        have hc_calls : c ∈ ce.calls := (List.mem_filter.mp hcmem).1
        have hc_target : e * (1 + s) ≤ c.strike := by
          have hmem := (List.mem_filter.mp hcmem).2
          simpa using hmem
        refine ⟨hce5, fun x hx h5 => hnear x hx h5, ?_, ?_, ⟨c, hc_calls, rfl, rfl⟩⟩
        · intro _
          refine ⟨rfl, hc_target, ?_⟩
          intro d hd hdt
          exact hcmin d (List.mem_filter.mpr ⟨hd, by simpa using hdt⟩)
        · intro hall
          exact absurd hc_target (not_le.mpr (hall c hc_calls))
      | none =>
        have hotm_nil : ce.calls.filter (fun c => e * (1 + s) ≤ c.strike) = [] := by
          by_contra hne
          obtain ⟨c0, hc0⟩ := argminStrikeFirst_isSome _ hne
          rw [hmin] at hc0
          exact absurd hc0 (by simp)
        cases hmax : argmaxStrikeLast ce.calls with
        | none => rw [hmin, hmax] at hres'; simp at hres'
        | some c =>
          rw [hmin, hmax] at hres'
          simp only [Except.ok.injEq] at hres'
          obtain rfl := hres'.symm
          obtain ⟨hcmem, hcmax⟩ := argmaxStrikeLast_spec _ _ hmax
          refine ⟨hce5, fun x hx h5 => hnear x hx h5, ?_, ?_, ⟨c, hcmem, rfl, rfl⟩⟩
          · rintro ⟨c0, hc0_calls, hc0_target⟩
            exfalso
            have hc0_otm : c0 ∈ ce.calls.filter (fun c => e * (1 + s) ≤ c.strike) :=
              List.mem_filter.mpr ⟨hc0_calls, by simpa using hc0_target⟩
            rw [hotm_nil] at hc0_otm
            simp at hc0_otm
          · intro _
            exact ⟨rfl, hcmax⟩
  · intro hist e exps p r h
    obtain ⟨hlen, choice, hps, rfl⟩ := engineCore_ok_elim h
    simp [mkResults]

/-- Witness for C4 at the concrete chain: one expiration 7 days out,
one call above target. -/
theorem c4_premium_selection_witness :
    (c6exps.Pairwise (fun a b => a.daysOut ≤ b.daysOut) ∧
     premiumSelect c6exps 100 c10wp.strike_pct = .ok ⟨7, 105, 2, false⟩ ∧
     (5 ≤ (⟨7, 105, 2, false⟩ : PremiumChoice).exp_days ∧
      (∀ x ∈ c6exps, 5 ≤ x.daysOut →
        (⟨7, 105, 2, false⟩ : PremiumChoice).exp_days ≤ x.daysOut) ∧
      ((∃ c ∈ (c6exps.filter (fun x => 5 ≤ x.daysOut)).headI.calls,
          100 * (1 + c10wp.strike_pct) ≤ c.strike) →
        (⟨7, 105, 2, false⟩ : PremiumChoice).used_fallback = false ∧
        100 * (1 + c10wp.strike_pct) ≤ (⟨7, 105, 2, false⟩ : PremiumChoice).strike ∧
        ∀ d ∈ (c6exps.filter (fun x => 5 ≤ x.daysOut)).headI.calls,
          100 * (1 + c10wp.strike_pct) ≤ d.strike →
            (⟨7, 105, 2, false⟩ : PremiumChoice).strike ≤ d.strike) ∧
      ((∀ c ∈ (c6exps.filter (fun x => 5 ≤ x.daysOut)).headI.calls,
          c.strike < 100 * (1 + c10wp.strike_pct)) →
        (⟨7, 105, 2, false⟩ : PremiumChoice).used_fallback = true ∧
        ∀ d ∈ (c6exps.filter (fun x => 5 ≤ x.daysOut)).headI.calls,
          d.strike ≤ (⟨7, 105, 2, false⟩ : PremiumChoice).strike) ∧
      (∃ q ∈ (c6exps.filter (fun x => 5 ≤ x.daysOut)).headI.calls,
        (⟨7, 105, 2, false⟩ : PremiumChoice).strike = q.strike ∧
        (⟨7, 105, 2, false⟩ : PremiumChoice).bid = q.bid))) ∧
    (engineCore c6hist 100 c6exps c10wp = Except.ok c6run ∧
     c6run.total_premium = c6run.bid_price * (c10wp.weeks_of_history : ℚ)) :=
  ⟨⟨by simp [c6exps], c6premium,
    c4_premium_selection.1 c6exps 100 c10wp.strike_pct ⟨7, 105, 2, false⟩
      (by simp [c6exps]) c6premium⟩,
   ⟨by rw [c6engine_ok, c6run_eq],
    c4_premium_selection.2 c6hist 100 c6exps c10wp c6run (by rw [c6engine_ok, c6run_eq])⟩⟩
